import Mathlib

/-!
Verification of `datasketch/lean_minhash.py` (class `LeanMinHash`).

The embedding below translates the Python source.  Buffers are lists of
byte values (`List Nat`), machine integers are `Nat` with explicit range
checks where `struct.pack` would reject out-of-range values, and Python
exceptions become the `PyErr` type carrying the exception class and its
message, so that the distinct `raise` sites of the source stay
distinguishable.
-/

/-- Byte-order selector, the `<` and `>` characters of the `struct`
format strings.  The standard sizes of `<`/`>` coincide with the native
single-item sizes used by the code, so the two constructors cover the
byte orders the claims are about. -/
inductive ByteOrder where
  | little
  | big
deriving DecidableEq, Repr

/-- Python exceptions raised by the translated code: the exception class
together with its message. -/
inductive PyErr where
  | valueError (msg : String)
  | typeError (msg : String)
  | structError (msg : String)
  | attributeError (msg : String)
deriving DecidableEq, Repr

/-- Message of the `raise ValueError` at line 228 of the source
(`union` with fewer than 2 sketches). -/
def insufficientMsg : String := "Cannot union less than 2 MinHash"

/-- Message of the `raise ValueError` at line 232 of the source
(`union` over incompatible sketches). -/
def incompatibleMsg : String :=
  "The unioning MinHash must have the same seed, number of permutation functions and hashobj"

/-- Message of the `raise ValueError` at line 147 of the source
(`serialize` buffer-space check). -/
def bufferSpaceMsg : String := "The buffer does not have enough space for holding this MinHash."

/-- Message of the `raise TypeError` in `LeanMinHash.update`. -/
def cannotUpdateMsg : String := "Cannot update a LeanMinHash"

/-- `struct.error` raised by `pack_into` when the buffer is too small
for the packed data at the given offset. -/
def packIntoSizeMsg : String := "pack_into requires a buffer large enough for the packed bytes"

/-- `struct.error` raised by `pack_into` when a value does not fit its
format character. -/
def argOutOfRangeMsg : String := "argument out of range"

/-- `struct.error` raised by `unpack_from` when the buffer is shorter
than the 4-byte `HBB` header. -/
def unpackHeaderMsg : String := "unpack_from requires a buffer of at least 4 bytes"

/-- `struct.error` raised by `unpack_from` when the buffer is shorter
than the declared hash values. -/
def unpackHashMsg : String := "unpack_from requires a buffer large enough for the hash values"

/-- `TypeError` raised by `np.dtype` on an unsupported item size. -/
def badDtypeMsg : String := "data type not understood"

/-- The `LeanMinHash` object.  `seed` and `hashvalues` are the declared
`__slots__`; `n_bytes` mirrors the `n_bytes`/`dtype.itemsize` attribute
set by `__init__` and `deserialize`.  It is `none` on objects built by
`object.__new__` that never assign it (`union`), where a later attribute
access would raise `AttributeError`. -/
structure LeanMinHash where
  seed : Nat
  hashvalues : List Nat
  n_bytes : Option Nat
deriving DecidableEq, Repr

/-- Modelled from the spec: `_parse_hashvalues` of the external base
class (not part of the shown source) normalizes the slot sequence; per
the spec the slots are kept as the given ordered sequence of unsigned
integers, so it is the identity on already-valid values. -/
def parseHashvalues (hvs : List Nat) : List Nat := hvs

/-- Modelled from the spec: `length()` of the external base class
returns `width`, the number of slots (`len(self)` in the source). -/
def LeanMinHash.len (s : LeanMinHash) : Nat := s.hashvalues.length

/-- Modelled from the spec: equality of sketches (base-class `__eq__`,
not part of the shown source) holds iff `seed` and the slot values agree
elementwise. -/
def LeanMinHash.equals (a b : LeanMinHash) : Bool :=
  a.seed == b.seed && a.hashvalues == b.hashvalues

/-- Little-endian bytes of `v`, `k` bytes wide (the byte string
`struct.pack` produces for an in-range value). -/
def toLE : Nat → Nat → List Nat
  | 0, _ => []
  | k + 1, v => v % 256 :: toLE k (v / 256)

/-- Value of a little-endian byte string. -/
def fromLE : List Nat → Nat
  | [] => 0
  | b :: bs => b + 256 * fromLE bs

/-- Bytes of one packed field of width `k` in byte order `bo`. -/
def packN (bo : ByteOrder) (k v : Nat) : List Nat :=
  match bo with
  | .little => toLE k v
  | .big => (toLE k v).reverse

/-- Value of one unpacked field in byte order `bo`. -/
def unpackN (bo : ByteOrder) (bs : List Nat) : Nat :=
  match bo with
  | .little => fromLE bs
  | .big => fromLE bs.reverse

/-- Packed bytes of all hash values, `nb` bytes each. -/
def packAll (bo : ByteOrder) (nb : Nat) : List Nat → List Nat
  | [] => []
  | v :: vs => packN bo nb v ++ packAll bo nb vs

/-- The byte string written by `struct.pack_into` with format
`{byteorder}HBB{n}{dtype.char}` and arguments
`(len(self), self.seed, self.dtype.itemsize, *self.hashvalues)`
(line 149 of the source): a 2-byte width, a 1-byte seed, a 1-byte item
size, then the hash values. -/
def packBytes (bo : ByteOrder) (seed nb : Nat) (hvs : List Nat) : List Nat :=
  packN bo 2 hvs.length ++ packN bo 1 seed ++ packN bo 1 nb ++ packAll bo nb hvs

/-- `struct.pack_into(fmt, buf, offset, len(self), seed, itemsize, *hashvalues)`:
fails with `struct.error` when the buffer cannot hold the packed size at
`offset` or when a value exceeds its format character, otherwise
overwrites exactly the packed range of the buffer. -/
def packInto (bo : ByteOrder) (seed nb : Nat) (hvs : List Nat) (buf : List Nat)
    (offset : Nat) : Except PyErr (List Nat) :=
  let size := 2 + 1 + 1 + hvs.length * nb
  if buf.length < offset + size then
    .error (.structError packIntoSizeMsg)
  else if hvs.length < 2 ^ 16 ∧ seed < 2 ^ 8 ∧ nb < 2 ^ 8 ∧ ∀ v ∈ hvs, v < 2 ^ (8 * nb) then
    .ok (buf.take offset ++ packBytes bo seed nb hvs ++ buf.drop (offset + size))
  else
    .error (.structError argOutOfRangeMsg)

/-- `LeanMinHash.bytesize` (lines 80-101 of the source).  It sums
`calcsize(byteorder+"B")` for the seed (1 byte),
`calcsize(byteorder+"i")` for the length (4 bytes),
`calcsize(byteorder+"B")` for `n_bytes` (1 byte) and
`len(self) * dtype.itemsize` for the hash values; the result is the
same for every byte-order character.  Accessing `self.dtype` on an
object that never set it raises `AttributeError`. -/
def LeanMinHash.bytesize (s : LeanMinHash) : Except PyErr Nat :=
  match s.n_bytes with
  | none => .error (.attributeError "dtype")
  | some nb => .ok (1 + 4 + 1 + s.len * nb)

/-- `LeanMinHash.serialize` (lines 103-151 of the source) for buffer
arguments (the `io.BufferedWriter` branch does not apply): raise
`ValueError` when `len(buf) < self.bytesize()` (the offset is not part
of this check), then `struct.pack_into` the `HBB`-headed record at
`offset`.  Returns the resulting buffer contents. -/
def LeanMinHash.serialize (s : LeanMinHash) (buf : List Nat) (bo : ByteOrder)
    (offset : Nat) : Except PyErr (List Nat) :=
  match s.n_bytes with
  | none => .error (.attributeError "dtype")
  | some nb =>
    if buf.length < 1 + 4 + 1 + s.len * nb then
      .error (.valueError bufferSpaceMsg)
    else
      packInto bo s.seed nb s.hashvalues buf offset

/-- Decode `k` hash values of `nb` bytes each from a byte string. -/
def chunkDecode (bo : ByteOrder) (nb : Nat) : Nat → List Nat → List Nat
  | 0, _ => []
  | k + 1, bs => unpackN bo (bs.take nb) :: chunkDecode bo nb k (bs.drop nb)

/-- `LeanMinHash.deserialize` (lines 153-197 of the source).  `host` is
the machine's native endianness (`sys.byteorder`).  Line 177 of the
source overwrites the `byteorder` parameter with the host order before
any decoding, so the `_byteorder` argument is never read.  The code then
unpacks the `HBB` header at offset 0, builds `np.dtype` from the decoded
`n_bytes` (a `TypeError` for an unsupported size), and unpacks
`num_perm` hash values. -/
def LeanMinHash.deserialize (host : ByteOrder) (buf : List Nat)
    (_byteorder : ByteOrder) : Except PyErr LeanMinHash :=
  let bo := host
  if buf.length < 4 then
    .error (.structError unpackHeaderMsg)
  else
    let num_perm := unpackN bo (buf.take 2)
    let seed := unpackN bo ((buf.drop 2).take 1)
    let nb := unpackN bo ((buf.drop 3).take 1)
    if nb = 1 ∨ nb = 2 ∨ nb = 4 ∨ nb = 8 then
      if buf.length < 4 + num_perm * nb then
        .error (.structError unpackHashMsg)
      else
        .ok { seed := seed
              hashvalues := parseHashvalues (chunkDecode bo nb num_perm (buf.drop 4))
              n_bytes := some nb }
    else
      .error (.typeError badDtypeMsg)

/-- `np.minimum` on two arrays: the elementwise minimum. -/
def npMinimum (a b : List Nat) : List Nat := List.zipWith min a b

/-- `LeanMinHash.union` (lines 225-238 of the source): raise
`ValueError` for fewer than 2 inputs, raise `ValueError` when any input
disagrees with the first on `seed` or length, else build a fresh object
(whose `dtype`/`n_bytes` are never assigned) holding the
`np.minimum.reduce` of the hash values. -/
def LeanMinHash.union : List LeanMinHash → Except PyErr LeanMinHash
  | [] => .error (.valueError insufficientMsg)
  | [_] => .error (.valueError insufficientMsg)
  | m :: rest =>
    if (m :: rest).any (fun x => m.seed != x.seed || m.len != x.len) then
      .error (.valueError incompatibleMsg)
    else
      .ok { seed := m.seed
            hashvalues :=
              parseHashvalues ((rest.map (fun x => x.hashvalues)).foldl npMinimum m.hashvalues)
            n_bytes := none }

/-- `LeanMinHash.update` (lines 69-73 of the source): unconditionally
`raise TypeError`; the object is returned unchanged alongside the error
since the method body performs no assignment. -/
def LeanMinHash.update {α : Type} (s : LeanMinHash) (_b : α) :
    Except PyErr Unit × LeanMinHash :=
  (.error (.typeError cannotUpdateMsg), s)

/-- Compatibility of a sketch list: every member agrees with the first
on `seed` and on the number of hash values. -/
def compatible : List LeanMinHash → Prop
  | [] => True
  | m :: rest => ∀ x ∈ m :: rest, x.seed = m.seed ∧ x.hashvalues.length = m.hashvalues.length

instance : (l : List LeanMinHash) → Decidable (compatible l)
  | [] => .isTrue True.intro
  | m :: rest =>
    inferInstanceAs
      (Decidable (∀ x ∈ m :: rest, x.seed = m.seed ∧ x.hashvalues.length = m.hashvalues.length))

/-- Python values as they matter for `copy`: the fields of a sketch can
hold integers, strings (the bug makes them slot-name strings), or a
sequence of integers. -/
inductive PyVal where
  | int (n : Nat)
  | str (s : String)
  | intList (l : List Nat)
deriving DecidableEq, Repr

/-- A `LeanMinHash` object with dynamically typed `__slots__` fields,
as needed to express what `copy` actually stores. -/
structure PyLeanMinHash where
  seed : PyVal
  hashvalues : PyVal
deriving DecidableEq, Repr

/-- Modelled from the spec: the base-class `_parse_hashvalues` (not part
of the shown source) normalizes the slot sequence; it is modelled as the
identity, the reading most generous to the copied value. -/
def pyParseHashvalues (v : PyVal) : PyVal := v

/-- `_initialize_slots(seed, hashvalues)` at the dynamically typed
level: store `seed`, store `_parse_hashvalues(hashvalues)`. -/
def pyInitializeSlots (seed hashvalues : PyVal) : PyLeanMinHash :=
  { seed := seed, hashvalues := pyParseHashvalues hashvalues }

/-- `LeanMinHash.copy` (lines 75-78 of the source):
`lmh._initialize_slots(*self.__slots__)` unpacks the class attribute
`__slots__ = ("seed", "hashvalues")` — the tuple of slot NAMES — so the
two arguments are the strings `"seed"` and `"hashvalues"`, regardless of
the receiver's field values. -/
def pyCopy (_self : PyLeanMinHash) : PyLeanMinHash :=
  pyInitializeSlots (.str "seed") (.str "hashvalues")

/-- Modelled from the spec: dynamically typed sketch equality (base
class `__eq__`), seed and slot values compared as Python values. -/
def pyEquals (a b : PyLeanMinHash) : Bool :=
  a.seed == b.seed && a.hashvalues == b.hashvalues

/-- View of a well-typed sketch as a dynamically typed object. -/
def pyOf (s : LeanMinHash) : PyLeanMinHash :=
  { seed := .int s.seed, hashvalues := .intList s.hashvalues }

/-- Concrete sketch of spec scenario 1: seed 1, width 4, precision 4,
slots `[10, 20, 30, 40]`. -/
def sketch1 : LeanMinHash := { seed := 1, hashvalues := [10, 20, 30, 40], n_bytes := some 4 }

/-- Concrete sketch A of spec scenario 2. -/
def sketchA : LeanMinHash := { seed := 42, hashvalues := [5, 9, 2, 7], n_bytes := some 4 }

/-- Concrete sketch B of spec scenario 2. -/
def sketchB : LeanMinHash := { seed := 42, hashvalues := [3, 10, 1, 8], n_bytes := some 4 }

/-- A third sketch compatible with A and B. -/
def sketchC : LeanMinHash := { seed := 42, hashvalues := [6, 0, 9, 9], n_bytes := some 4 }

/-- A sketch sharing width but not seed with A (spec scenario 4). -/
def sketchD : LeanMinHash := { seed := 1, hashvalues := [0, 0, 0, 0], n_bytes := some 4 }

/-- A minimal sketch: seed 0, one 1-byte slot holding 1. -/
def sketch0 : LeanMinHash := { seed := 0, hashvalues := [1], n_bytes := some 1 }

/-- The big-endian serialization of `sketch0`:
width 1, seed 0, item size 1, value 1. -/
def demoBuf : List Nat := [0, 1, 0, 1, 1]

/-- Decidable equality on `Except`, so that concrete runs of the
translated operations can be checked by evaluation. -/
instance {ε α : Type} [DecidableEq ε] [DecidableEq α] : DecidableEq (Except ε α)
  | .error e, .error f =>
    if h : e = f then .isTrue (by rw [h]) else .isFalse (by intro hh; cases hh; exact h rfl)
  | .error _, .ok _ => .isFalse (by intro h; cases h)
  | .ok _, .error _ => .isFalse (by intro h; cases h)
  | .ok a, .ok b =>
    if h : a = b then .isTrue (by rw [h]) else .isFalse (by intro hh; cases hh; exact h rfl)

/-! ## Helper lemmas -/

theorem npMinimum_length (a b : List Nat) : (npMinimum a b).length = min a.length b.length := by
  simp [npMinimum]

theorem npMinimum_comm (a b : List Nat) : npMinimum a b = npMinimum b a := by
  induction a generalizing b with
  | nil => cases b <;> rfl
  | cons x xs ih =>
    cases b with
    | nil => rfl
    | cons y ys =>
      simp only [npMinimum, List.zipWith] at ih ⊢
      rw [Nat.min_comm, ih]

theorem npMinimum_assoc (a b c : List Nat) :
    npMinimum (npMinimum a b) c = npMinimum a (npMinimum b c) := by
  induction a generalizing b c with
  | nil => cases b <;> cases c <;> rfl
  | cons x xs ih =>
    cases b with
    | nil => cases c <;> rfl
    | cons y ys =>
      cases c with
      | nil => rfl
      | cons z zs =>
        simp only [npMinimum, List.zipWith] at ih ⊢
        rw [Nat.min_assoc, ih]

theorem npMinimum_idem (a : List Nat) : npMinimum a a = a := by
  induction a with
  | nil => rfl
  | cons x xs ih =>
    simp only [npMinimum, List.zipWith] at ih ⊢
    rw [Nat.min_self, ih]

theorem npMinimum_left_comm (a b c : List Nat) :
    npMinimum (npMinimum a b) c = npMinimum (npMinimum a c) b := by
  rw [npMinimum_assoc, npMinimum_assoc, npMinimum_comm b c]

theorem foldl_npMinimum_perm {t u : List (List Nat)} (p : List.Perm t u) :
    ∀ a, t.foldl npMinimum a = u.foldl npMinimum a := by
  induction p with
  | nil => intro a; rfl
  | cons x _ ih =>
    intro a
    simp only [List.foldl_cons]
    exact ih (npMinimum a x)
  | swap x y l =>
    intro a
    simp only [List.foldl_cons]
    rw [npMinimum_left_comm]
  | trans _ _ ih1 ih2 =>
    intro a
    exact (ih1 a).trans (ih2 a)

theorem foldl_npMinimum_absorb :
    ∀ (t : List (List Nat)) (x : List Nat), x ∈ t →
      ∀ b, t.foldl npMinimum (npMinimum b x) = t.foldl npMinimum b := by
  intro t
  induction t with
  | nil => intro x hx; exact absurd hx (List.not_mem_nil x)
  | cons c cs ih =>
    intro x hx b
    rcases List.mem_cons.1 hx with h | h
    · subst h
      simp only [List.foldl_cons]
      rw [npMinimum_assoc, npMinimum_idem]
    · simp only [List.foldl_cons]
      rw [npMinimum_left_comm]
      exact ih x h (npMinimum b c)

theorem foldl_npMinimum_head_perm {x y : List Nat} {xs ys : List (List Nat)}
    (p : List.Perm (x :: xs) (y :: ys)) :
    xs.foldl npMinimum x = ys.foldl npMinimum y := by
  have hx : x ∈ y :: ys := p.subset (List.mem_cons_self x xs)
  have h1 : (x :: xs).foldl npMinimum x = (y :: ys).foldl npMinimum x :=
    foldl_npMinimum_perm p x
  simp only [List.foldl_cons, npMinimum_idem] at h1
  rw [h1]
  rcases List.mem_cons.1 hx with h | h
  · subst h; rw [npMinimum_idem]
  · rw [npMinimum_comm]
    exact foldl_npMinimum_absorb ys x h y

theorem foldl_npMinimum_length :
    ∀ (ls : List (List Nat)) (a : List Nat), (∀ x ∈ ls, x.length = a.length) →
      (ls.foldl npMinimum a).length = a.length := by
  intro ls
  induction ls with
  | nil => intro a _; rfl
  | cons b bs ih =>
    intro a h
    have hb : b.length = a.length := h b (List.mem_cons_self b bs)
    have hab : (npMinimum a b).length = a.length := by
      rw [npMinimum_length, hb, Nat.min_self]
    simp only [List.foldl_cons]
    rw [ih (npMinimum a b) (fun x hx => by rw [hab]; exact h x (List.mem_cons_of_mem b hx)), hab]

theorem npMinimum_getD :
    ∀ (a b : List Nat) (i : Nat), i < a.length → i < b.length →
      (npMinimum a b).getD i 0 = min (a.getD i 0) (b.getD i 0) := by
  intro a
  induction a with
  | nil => intro b i hi; exact absurd hi (by simp)
  | cons x xs ih =>
    intro b i hi hib
    cases b with
    | nil => exact absurd hib (by simp)
    | cons y ys =>
      cases i with
      | zero => rfl
      | succ j =>
        simp only [npMinimum, List.zipWith, List.getD_cons_succ]
        exact ih ys j (by simpa using hi) (by simpa using hib)

theorem foldl_npMinimum_getD :
    ∀ (ls : List (List Nat)) (a : List Nat), (∀ x ∈ ls, x.length = a.length) →
      ∀ i, i < a.length →
        (ls.foldl npMinimum a).getD i 0 =
          (ls.map (fun x => x.getD i 0)).foldl min (a.getD i 0) := by
  intro ls
  induction ls with
  | nil => intro a _ i _; rfl
  | cons b bs ih =>
    intro a h i hi
    have hb : b.length = a.length := h b (List.mem_cons_self b bs)
    have hab : (npMinimum a b).length = a.length := by
      rw [npMinimum_length, hb, Nat.min_self]
    simp only [List.foldl_cons, List.map_cons]
    rw [ih (npMinimum a b) (fun x hx => by rw [hab]; exact h x (List.mem_cons_of_mem b hx)) i
        (by rw [hab]; exact hi),
      npMinimum_getD a b i hi (by rw [hb]; exact hi)]

theorem union_nil : LeanMinHash.union [] = .error (.valueError insufficientMsg) := rfl

theorem union_single (m : LeanMinHash) :
    LeanMinHash.union [m] = .error (.valueError insufficientMsg) := rfl

theorem union_cons2 (m r : LeanMinHash) (rs : List LeanMinHash) :
    LeanMinHash.union (m :: r :: rs) =
      if (m :: r :: rs).any (fun x => m.seed != x.seed || m.len != x.len) then
        .error (.valueError incompatibleMsg)
      else
        .ok { seed := m.seed
              hashvalues := ((r :: rs).map (fun x => x.hashvalues)).foldl npMinimum m.hashvalues
              n_bytes := none } := rfl

theorem compat_any_false (m : LeanMinHash) (rest : List LeanMinHash)
    (h : ∀ x ∈ m :: rest, x.seed = m.seed ∧ x.hashvalues.length = m.hashvalues.length) :
    ((m :: rest).any (fun x => m.seed != x.seed || m.len != x.len)) = false := by
  rw [List.any_eq_false]
  intro x hx
  have hs := h x hx
  simp [LeanMinHash.len, hs.1, hs.2]

theorem not_compat_any_true (m : LeanMinHash) (rest : List LeanMinHash)
    (h : ¬ compatible (m :: rest)) :
    ((m :: rest).any (fun x => m.seed != x.seed || m.len != x.len)) = true := by
  rw [List.any_eq_true]
  simp only [compatible, not_forall] at h
  obtain ⟨x, hx, hprop⟩ := h
  refine ⟨x, hx, ?_⟩
  simp only [Bool.or_eq_true, bne_iff_ne, Ne, LeanMinHash.len]
  by_contra hc
  push_neg at hc
  exact hprop ⟨hc.1.symm, hc.2.symm⟩

theorem toLE_length (k v : Nat) : (toLE k v).length = k := by
  induction k generalizing v with
  | zero => rfl
  | succ n ih => simp [toLE, ih]

theorem packN_length (bo : ByteOrder) (k v : Nat) : (packN bo k v).length = k := by
  cases bo <;> simp [packN, toLE_length]

theorem packAll_length (bo : ByteOrder) (nb : Nat) :
    ∀ hvs : List Nat, (packAll bo nb hvs).length = hvs.length * nb := by
  intro hvs
  induction hvs with
  | nil => simp [packAll]
  | cons v vs ih =>
    simp [packAll, packN_length, ih, Nat.succ_mul, Nat.add_comm]

theorem packBytes_length (bo : ByteOrder) (seed nb : Nat) (hvs : List Nat) :
    (packBytes bo seed nb hvs).length = 2 + 1 + 1 + hvs.length * nb := by
  simp [packBytes, packN_length, packAll_length]
  omega

/-! ## Claim theorems -/

/-- C1: the round-trip claim fails on the code.  Serializing `sketch1`
(seed 1, width 4, precision 4) big-endian and deserializing with the
same big-endian byte order on a little-endian host fails (the header is
decoded with the host order, so the width reads as 1024), and
symmetrically for little-endian data on a big-endian host; the round
trip only succeeds when the chosen byte order coincides with the host
order. -/
theorem roundtrip_mixed_byteorder_fails :
    ((LeanMinHash.serialize sketch1 (List.replicate 22 0) .big 0).bind
        (fun out => LeanMinHash.deserialize .little out .big)
      = .error (.structError unpackHashMsg))
    ∧ ((LeanMinHash.serialize sketch1 (List.replicate 22 0) .little 0).bind
        (fun out => LeanMinHash.deserialize .big out .little)
      = .error (.structError unpackHashMsg))
    ∧ ((LeanMinHash.serialize sketch1 (List.replicate 22 0) .little 0).bind
        (fun out => LeanMinHash.deserialize .little out .little)
      = .ok sketch1) := by
  decide

/-- C2: `deserialize` does not honor its byte-order argument.  Its
result never depends on the supplied argument (line 177 overwrites it),
and on the same buffer the result changes with the host machine's
endianness: `demoBuf` is valid big-endian data, accepted on a big-endian
host but rejected on a little-endian host even though the argument says
big-endian in both calls. -/
theorem deserialize_ignores_byteorder_argument :
    (∀ (host : ByteOrder) (buf : List Nat) (b1 b2 : ByteOrder),
        LeanMinHash.deserialize host buf b1 = LeanMinHash.deserialize host buf b2)
    ∧ LeanMinHash.deserialize .big demoBuf .big = .ok sketch0
    ∧ LeanMinHash.deserialize .little demoBuf .big = .error (.structError unpackHashMsg) := by
  refine ⟨fun host buf b1 b2 => rfl, by decide, by decide⟩

/-- C4: `bytesize` does not return `2 + 1 + 1 + width * precision`.
On `sketch1` (width 4, precision 4) it returns `1 + 4 + 1 + 16 = 22`,
not the `2 + 1 + 1 + 16 = 20` the claim states. -/
theorem bytesize_value_mismatch :
    LeanMinHash.bytesize sketch1 = .ok 22
    ∧ (2 + 1 + 1 + 4 * 4 : Nat) = 20
    ∧ (22 : Nat) ≠ 20 := by
  decide

/-- C5: `bytesize` disagrees with the bytes `serialize` actually
writes.  For `sketch1`, `bytesize` returns 22 while `serialize` writes
the 20-byte packed record, leaving the final 2 bytes of a 22-byte
buffer untouched. -/
theorem bytesize_vs_bytes_written :
    LeanMinHash.bytesize sketch1 = .ok 22
    ∧ (packBytes .little sketch1.seed 4 sketch1.hashvalues).length = 20
    ∧ LeanMinHash.serialize sketch1 (List.replicate 22 0) .little 0 =
        .ok (packBytes .little sketch1.seed 4 sketch1.hashvalues ++ [0, 0])
    ∧ (20 : Nat) ≠ 22 := by
  decide

/-- C6: `copy` does not return an equal sketch.  It passes the slot
NAMES from `__slots__` to `_initialize_slots`, so the copy's seed field
holds the string `"seed"` instead of the receiver's seed, and equality
with the original fails. -/
theorem copy_not_equal_original :
    pyEquals (pyCopy (pyOf sketchA)) (pyOf sketchA) = false
    ∧ (pyCopy (pyOf sketchA)).seed = PyVal.str "seed"
    ∧ (pyOf sketchA).seed = PyVal.int 42 := by
  decide

/-- C10: `update` always raises `TypeError` with the message of the
source, and the sketch's fields are left unchanged by the call. -/
theorem update_raises_typeerror :
    ∀ {α : Type} (s : LeanMinHash) (b : α),
      LeanMinHash.update s b = (Except.error (PyErr.typeError cannotUpdateMsg), s) :=
  fun _ _ => rfl

/-- C8 counterexample: a 7-byte buffer with offset 2 for `sketch0`
(whose `bytesize` is 7) has `length - offset = 5 < 7`, so the claim
demands a buffer-too-small failure, yet `serialize` succeeds (the
source compares `len(buf)` against `bytesize()` without the offset, and
the actual packed record is only 5 bytes). -/
theorem serialize_offset_check_counterexample :
    (List.replicate 7 (0 : Nat)).length - 2 < 7
    ∧ LeanMinHash.bytesize sketch0 = .ok 7
    ∧ LeanMinHash.serialize sketch0 (List.replicate 7 0) .little 2 = .ok [0, 0, 1, 0, 0, 1, 1] := by
  decide

/-- C3: `union` on at least two pairwise compatible sketches returns a
sketch with the first input's seed and width whose slot `i` is the
minimum of the inputs' slot `i` values, and on the concrete scenario
`union [sketchA, sketchB]` the slots are `[3, 9, 1, 7]` with seed 42. -/
theorem union_elementwise_minimum :
    (∀ (m : LeanMinHash) (rest : List LeanMinHash),
        rest ≠ [] →
        (∀ x ∈ m :: rest, x.seed = m.seed ∧ x.hashvalues.length = m.hashvalues.length) →
        ∃ u, LeanMinHash.union (m :: rest) = .ok u ∧
          u.seed = m.seed ∧
          u.hashvalues.length = m.hashvalues.length ∧
          ∀ i, i < m.hashvalues.length →
            u.hashvalues.getD i 0 =
              (rest.map (fun x => x.hashvalues.getD i 0)).foldl min (m.hashvalues.getD i 0))
    ∧ ∃ u, LeanMinHash.union [sketchA, sketchB] = .ok u
        ∧ u.seed = 42 ∧ u.hashvalues = [3, 9, 1, 7] ∧ u.hashvalues.length = 4 := by
  constructor
  · intro m rest hne hcomp
    cases rest with
    | nil => exact absurd rfl hne
    | cons r rs =>
      rw [union_cons2, compat_any_false m (r :: rs) hcomp, if_neg (by simp)]
      have hlen : ∀ x ∈ (r :: rs).map (fun x => x.hashvalues), x.length = m.hashvalues.length := by
        intro x hx
        obtain ⟨y, hy, rfl⟩ := List.mem_map.1 hx
        exact (hcomp y (List.mem_cons_of_mem m hy)).2
      refine ⟨_, rfl, rfl, ?_, ?_⟩
      · exact foldl_npMinimum_length _ _ hlen
      · intro i hi
        have h := foldl_npMinimum_getD ((r :: rs).map (fun x => x.hashvalues))
          m.hashvalues hlen i hi
        simpa [List.map_map, Function.comp, parseHashvalues] using h
  · exact ⟨{ seed := 42, hashvalues := [3, 9, 1, 7], n_bytes := none },
      by decide, by decide, by decide, by decide⟩

/-- C3 witness: the general statement applied to the concrete pair
`sketchA`, `sketchB`. -/
theorem union_elementwise_minimum_witness :
    ∃ u, LeanMinHash.union (sketchA :: [sketchB]) = .ok u ∧
      u.seed = sketchA.seed ∧
      u.hashvalues.length = sketchA.hashvalues.length ∧
      ∀ i, i < sketchA.hashvalues.length →
        u.hashvalues.getD i 0 =
          ([sketchB].map (fun x => x.hashvalues.getD i 0)).foldl min
            (sketchA.hashvalues.getD i 0) :=
  union_elementwise_minimum.1 sketchA [sketchB] (by decide) (by decide)

/-- C7: `union` on fewer than 2 inputs fails with the
insufficient-input `ValueError`, on at least 2 inputs that are not all
compatible it fails with the incompatibility `ValueError`, and the two
errors are distinguishable values (same exception class, distinct
messages). -/
theorem union_error_cases :
    (∀ l : List LeanMinHash, l.length < 2 →
        LeanMinHash.union l = .error (.valueError insufficientMsg))
    ∧ (∀ (m : LeanMinHash) (rest : List LeanMinHash), rest ≠ [] →
        ¬ compatible (m :: rest) →
        LeanMinHash.union (m :: rest) = .error (.valueError incompatibleMsg))
    ∧ PyErr.valueError insufficientMsg ≠ PyErr.valueError incompatibleMsg := by
  refine ⟨?_, ?_, by decide⟩
  · intro l hl
    match l with
    | [] => rfl
    | [m] => rfl
    | m :: r :: rs => exact absurd hl (by simp)
  · intro m rest hne hnc
    cases rest with
    | nil => exact absurd rfl hne
    | cons r rs =>
      rw [union_cons2, not_compat_any_true m (r :: rs) hnc, if_pos rfl]

/-- C7 witness: the error cases at concrete inputs — zero sketches, a
single sketch, and two sketches with different seeds. -/
theorem union_error_cases_witness :
    LeanMinHash.union [] = .error (.valueError insufficientMsg)
    ∧ LeanMinHash.union [sketchA] = .error (.valueError insufficientMsg)
    ∧ LeanMinHash.union (sketchA :: [sketchD]) = .error (.valueError incompatibleMsg) :=
  ⟨union_error_cases.1 [] (by decide),
   union_error_cases.1 [sketchA] (by decide),
   union_error_cases.2.1 sketchA [sketchD] (by decide) (by decide)⟩

theorem union_pair (a b : LeanMinHash) (hs : b.seed = a.seed)
    (hl : b.hashvalues.length = a.hashvalues.length) :
    LeanMinHash.union [a, b] =
      .ok { seed := a.seed, hashvalues := npMinimum a.hashvalues b.hashvalues,
            n_bytes := none } := by
  rw [union_cons2 a b []]
  rw [compat_any_false a [b] ?side, if_neg (by simp)]
  · rfl
  · intro x hx
    rcases List.mem_cons.1 hx with h | h
    · subst h; exact ⟨rfl, rfl⟩
    · rcases List.mem_singleton.1 h with rfl; exact ⟨hs, hl⟩

theorem union_triple (a b c : LeanMinHash)
    (hbs : b.seed = a.seed) (hbl : b.hashvalues.length = a.hashvalues.length)
    (hcs : c.seed = a.seed) (hcl : c.hashvalues.length = a.hashvalues.length) :
    LeanMinHash.union [a, b, c] =
      .ok { seed := a.seed,
            hashvalues := npMinimum (npMinimum a.hashvalues b.hashvalues) c.hashvalues,
            n_bytes := none } := by
  rw [union_cons2 a b [c]]
  rw [compat_any_false a [b, c] ?side, if_neg (by simp)]
  · rfl
  · intro x hx
    rcases List.mem_cons.1 hx with h | h
    · subst h; exact ⟨rfl, rfl⟩
    · rcases List.mem_cons.1 h with h2 | h2
      · subst h2; exact ⟨hbs, hbl⟩
      · rcases List.mem_singleton.1 h2 with rfl; exact ⟨hcs, hcl⟩

/-- C9: `union` over compatible sketches is permutation-invariant, and
`union [union [a, b], c]` equals `union [a, b, c]`. -/
theorem union_perm_assoc :
    (∀ (l t : List LeanMinHash), List.Perm l t → 2 ≤ l.length → compatible l →
        ∃ u v, LeanMinHash.union l = .ok u ∧ LeanMinHash.union t = .ok v ∧
          LeanMinHash.equals u v = true)
    ∧ (∀ a b c : LeanMinHash, compatible [a, b, c] →
        ∃ u w v, LeanMinHash.union [a, b] = .ok u ∧ LeanMinHash.union [u, c] = .ok w ∧
          LeanMinHash.union [a, b, c] = .ok v ∧ LeanMinHash.equals w v = true) := by
  constructor
  · intro l t p h2 hc
    match l, p, h2, hc with
    | m :: r :: rs, p, h2, hc =>
      have ht2 : 2 ≤ t.length := by rw [← p.length_eq]; exact h2
      match t, p, ht2 with
      | m2 :: r2 :: rs2, p, ht2 =>
        have hcl : ∀ x ∈ m :: r :: rs,
            x.seed = m.seed ∧ x.hashvalues.length = m.hashvalues.length := hc
        have hm2 : m2.seed = m.seed ∧ m2.hashvalues.length = m.hashvalues.length :=
          hcl m2 (p.mem_iff.2 (List.mem_cons_self m2 (r2 :: rs2)))
        have hct : ∀ x ∈ m2 :: r2 :: rs2,
            x.seed = m2.seed ∧ x.hashvalues.length = m2.hashvalues.length := by
          intro x hx
          have hxl := hcl x (p.mem_iff.2 hx)
          exact ⟨hxl.1.trans hm2.1.symm, hxl.2.trans hm2.2.symm⟩
        rw [union_cons2, compat_any_false m (r :: rs) hcl, if_neg (by simp)]
        rw [union_cons2 m2 r2 rs2, compat_any_false m2 (r2 :: rs2) hct, if_neg (by simp)]
        refine ⟨_, _, rfl, rfl, ?_⟩
        have pm := p.map (fun x => x.hashvalues)
        simp only [List.map_cons] at pm
        have hfold := foldl_npMinimum_head_perm pm
        simp only [LeanMinHash.equals, parseHashvalues, hm2.1]
        rw [show ((r :: rs).map (fun x => x.hashvalues)).foldl npMinimum m.hashvalues
              = ((r2 :: rs2).map (fun x => x.hashvalues)).foldl npMinimum m2.hashvalues
            from by simpa using hfold]
        simp
  · intro a b c hc
    have hcl : ∀ x ∈ [a, b, c],
        x.seed = a.seed ∧ x.hashvalues.length = a.hashvalues.length := hc
    have hb := hcl b (by simp)
    have hc3 := hcl c (by simp)
    have hulen : (npMinimum a.hashvalues b.hashvalues).length = a.hashvalues.length := by
      rw [npMinimum_length, hb.2, Nat.min_self]
    refine ⟨{ seed := a.seed, hashvalues := npMinimum a.hashvalues b.hashvalues,
              n_bytes := none }, _, _,
      union_pair a b hb.1 hb.2,
      union_pair _ c hc3.1 (hc3.2.trans hulen.symm),
      union_triple a b c hb.1 hb.2 hc3.1 hc3.2, ?_⟩
    simp [LeanMinHash.equals]

/-- C9 witness: permutation invariance on the concrete pair
`[sketchA, sketchB]` versus `[sketchB, sketchA]`, and associativity on
the concrete triple `sketchA`, `sketchB`, `sketchC`. -/
theorem union_perm_assoc_witness :
    (∃ u v, LeanMinHash.union [sketchA, sketchB] = .ok u ∧
        LeanMinHash.union [sketchB, sketchA] = .ok v ∧ LeanMinHash.equals u v = true)
    ∧ (∃ u w v, LeanMinHash.union [sketchA, sketchB] = .ok u ∧
        LeanMinHash.union [u, sketchC] = .ok w ∧
        LeanMinHash.union [sketchA, sketchB, sketchC] = .ok v ∧
        LeanMinHash.equals w v = true) :=
  ⟨union_perm_assoc.1 [sketchA, sketchB] [sketchB, sketchA]
      (List.Perm.swap sketchB sketchA []) (by decide) (by decide),
   union_perm_assoc.2 sketchA sketchB sketchC (by decide)⟩

/-- C8 amended: `serialize` raises the buffer-space `ValueError` iff
the buffer's TOTAL length (the offset is ignored by this check) is
below `bytesize() = 1 + 4 + 1 + width * precision`; past that check,
`pack_into` fails with `struct.error` when `length - offset` cannot
hold the `2 + 1 + 1 + width * precision` bytes actually packed; and
when both sizes fit (and the values are in range for their format
characters) it succeeds and modifies only the packed range starting at
the offset. -/
theorem serialize_buffer_check_amended :
    ∀ (s : LeanMinHash) (nb : Nat) (buf : List Nat) (bo : ByteOrder) (off : Nat),
      s.n_bytes = some nb →
      ((buf.length < 1 + 4 + 1 + s.hashvalues.length * nb →
          s.serialize buf bo off = .error (.valueError bufferSpaceMsg))
      ∧ (1 + 4 + 1 + s.hashvalues.length * nb ≤ buf.length →
          buf.length < off + (2 + 1 + 1 + s.hashvalues.length * nb) →
          s.serialize buf bo off = .error (.structError packIntoSizeMsg))
      ∧ (1 + 4 + 1 + s.hashvalues.length * nb ≤ buf.length →
          off + (2 + 1 + 1 + s.hashvalues.length * nb) ≤ buf.length →
          s.hashvalues.length < 2 ^ 16 → s.seed < 2 ^ 8 → nb < 2 ^ 8 →
          (∀ v ∈ s.hashvalues, v < 2 ^ (8 * nb)) →
          ∃ out, s.serialize buf bo off = .ok out
            ∧ out = buf.take off ++ packBytes bo s.seed nb s.hashvalues
                ++ buf.drop (off + (2 + 1 + 1 + s.hashvalues.length * nb))
            ∧ out.length = buf.length
            ∧ out.take off = buf.take off
            ∧ out.drop (off + (2 + 1 + 1 + s.hashvalues.length * nb)) =
                buf.drop (off + (2 + 1 + 1 + s.hashvalues.length * nb)))) := by
  intro s nb buf bo off hnb
  have hser : s.serialize buf bo off =
      if buf.length < 1 + 4 + 1 + s.hashvalues.length * nb then
        .error (.valueError bufferSpaceMsg)
      else packInto bo s.seed nb s.hashvalues buf off := by
    show (match s.n_bytes with
      | none => .error (.attributeError "dtype")
      | some nb =>
        if buf.length < 1 + 4 + 1 + s.len * nb then
          .error (.valueError bufferSpaceMsg)
        else
          packInto bo s.seed nb s.hashvalues buf off : Except PyErr (List Nat)) = _
    rw [hnb]
    rfl
  refine ⟨?_, ?_, ?_⟩
  · intro h1
    rw [hser, if_pos h1]
  · intro h1 h2
    rw [hser, if_neg (Nat.not_lt.2 h1)]
    unfold packInto
    rw [if_pos h2]
  · intro h1 h2 h3 h4 h5 h6
    rw [hser, if_neg (Nat.not_lt.2 h1)]
    unfold packInto
    rw [if_neg (Nat.not_lt.2 h2), if_pos ⟨h3, h4, h5, h6⟩]
    have hofflen : off ≤ buf.length := le_trans (Nat.le_add_right off _) h2
    have htakelen : (buf.take off).length = off := by
      rw [List.length_take]; exact Nat.min_eq_left hofflen
    have hAB : (buf.take off ++ packBytes bo s.seed nb s.hashvalues).length =
        off + (2 + 1 + 1 + s.hashvalues.length * nb) := by
      rw [List.length_append, htakelen, packBytes_length]
    refine ⟨_, rfl, rfl, ?_, ?_, ?_⟩
    · simp only [List.length_append, htakelen, packBytes_length, List.length_drop]
      omega
    · rw [List.take_append_of_le_length (by rw [hAB]; exact Nat.le_add_right off _),
        List.take_append_of_le_length (Nat.le_of_eq htakelen.symm),
        List.take_take, Nat.min_self]
    · rw [show off + (2 + 1 + 1 + s.hashvalues.length * nb) =
            (buf.take off ++ packBytes bo s.seed nb s.hashvalues).length + 0 from by
          rw [hAB]
          omega,
        List.drop_append, List.drop_zero]

/-- C8 amended witness: the three branches at concrete inputs — a
3-byte buffer is rejected by the bytesize check; a 7-byte buffer at
offset 3 passes the bytesize check but fails `pack_into`; a 7-byte
buffer at offset 2 succeeds and leaves the 2 leading bytes untouched. -/
theorem serialize_buffer_check_amended_witness :
    LeanMinHash.serialize sketch0 [0, 0, 0] .little 0 = .error (.valueError bufferSpaceMsg)
    ∧ LeanMinHash.serialize sketch0 (List.replicate 7 0) .little 3 =
        .error (.structError packIntoSizeMsg)
    ∧ (∃ out, LeanMinHash.serialize sketch0 (List.replicate 7 0) .little 2 = .ok out
        ∧ out = (List.replicate 7 (0 : Nat)).take 2 ++ packBytes .little sketch0.seed 1
            sketch0.hashvalues ++ (List.replicate 7 (0 : Nat)).drop (2 + (2 + 1 + 1 + 1 * 1))
        ∧ out.length = (List.replicate 7 (0 : Nat)).length
        ∧ out.take 2 = (List.replicate 7 (0 : Nat)).take 2
        ∧ out.drop (2 + (2 + 1 + 1 + 1 * 1)) =
            (List.replicate 7 (0 : Nat)).drop (2 + (2 + 1 + 1 + 1 * 1))) :=
  ⟨(serialize_buffer_check_amended sketch0 1 [0, 0, 0] .little 0 rfl).1 (by decide),
   (serialize_buffer_check_amended sketch0 1 (List.replicate 7 0) .little 3 rfl).2.1
      (by decide) (by decide),
   (serialize_buffer_check_amended sketch0 1 (List.replicate 7 0) .little 2 rfl).2.2
      (by decide) (by decide) (by decide) (by decide) (by decide) (by decide)⟩
